import Mathlib

/-
Verification development for the SAT-modeling front end
(pysolveengine/satmodel.py): the boolean-expression algebra, its CNF
compiler, the DIMACS serializer, and the model-level registry and
constraint operations.

Machine integers are modelled as Nat/Int (Python ints are unbounded),
Python dicts as insertion-ordered association lists, and raised
exceptions as Except/Option results.
-/

namespace SatModel

/-- A signed literal of a compiled clause: a variable id, asserted
(a bare Var node in the source) or negated (a NEG node wrapping a Var). -/
inductive Lit where
  | pos (id : Nat)
  | neg (id : Nat)
deriving DecidableEq

/-- A clause: the content list of an OR node holding only literals. -/
abbrev Clause := List Lit

/-- A clause set: the content list of the AND-of-ORs returned by
convert_to_cnf. -/
abbrev CNF := List Clause

/-- The expression grammar of satmodel.py: Var, NEG, AND, OR, XOR, EQ,
NE, IMP.  AND and OR hold an ordered children list (ListExpr). -/
inductive Expr where
  | var (id : Nat)
  | neg (inner : Expr)
  | and (content : List Expr)
  | or (content : List Expr)
  | xor (lhs rhs : Expr)
  | eq (lhs rhs : Expr)
  | ne (lhs rhs : Expr)
  | imp (lhs rhs : Expr)

/-- Children list built by the AND constructor (ListExpr.__add_other):
an argument that is itself an AND has its children spliced in, any other
argument is appended as a single child. -/
def flattenAND : List Expr → List Expr
  | [] => []
  | .and c :: rest => c ++ flattenAND rest
  | e :: rest => e :: flattenAND rest

/-- Children list built by the OR constructor (ListExpr.__add_other). -/
def flattenOR : List Expr → List Expr
  | [] => []
  | .or c :: rest => c ++ flattenOR rest
  | e :: rest => e :: flattenOR rest

/-- AND(*content): the AND constructor with one level of flattening. -/
def mkAND (l : List Expr) : Expr := .and (flattenAND l)

/-- OR(*content): the OR constructor with one level of flattening. -/
def mkOR (l : List Expr) : Expr := .or (flattenOR l)

/-- Expr.__and__: a & b = AND(a, b). -/
def andOp (a b : Expr) : Expr := mkAND [a, b]

/-- Expr.__or__: a | b = OR(a, b). -/
def orOp (a b : Expr) : Expr := mkOR [a, b]

/-- Unary negation: Expr.__neg__ returns NEG(self), and NEG.__neg__
returns self.inner, so negating unwraps an existing NEG. -/
def negOp : Expr → Expr
  | .neg i => i
  | e => .neg e

/-- XOR.get_equivalent_expr: (lhs & -rhs) | (-lhs & rhs). -/
def XOR.get_equivalent_expr (a b : Expr) : Expr :=
  orOp (andOp a (negOp b)) (andOp (negOp a) b)

/-- EQ.get_equivalent_expr: (lhs & rhs) | (-lhs & -rhs). -/
def EQ.get_equivalent_expr (a b : Expr) : Expr :=
  orOp (andOp a b) (andOp (negOp a) (negOp b))

/-- NE.get_equivalent_expr: (-lhs | -rhs) & (lhs | rhs). -/
def NE.get_equivalent_expr (a b : Expr) : Expr :=
  andOp (orOp (negOp a) (negOp b)) (orOp a b)

/-- IMP.get_equivalent_expr: -rhs | lhs (the source negates the
right-hand side and keeps the left-hand side). -/
def IMP.get_equivalent_expr (a b : Expr) : Expr :=
  orOp (negOp b) a

/- Termination measure for the CNF compiler: the source recursion
terminates because each step strictly shrinks this weight. -/
mutual

def w : Expr → Nat
  | .var _ => 1
  | .neg e => 2 * w e
  | .and c => 1 + wList c
  | .or c => 1 + wList c
  | .xor a b => 3 * (w a + w b) + 10
  | .eq a b => 3 * (w a + w b) + 10
  | .ne a b => 3 * (w a + w b) + 10
  | .imp a b => 3 * (w a + w b) + 10

def wList : List Expr → Nat
  | [] => 0
  | e :: rest => w e + 1 + wList rest

end

theorem w_pos : ∀ e : Expr, 1 ≤ w e
  | .var _ => le_refl 1
  | .neg e => by have := w_pos e; simp only [w]; omega
  | .and _ => by simp only [w]; omega
  | .or _ => by simp only [w]; omega
  | .xor _ _ => by simp only [w]; omega
  | .eq _ _ => by simp only [w]; omega
  | .ne _ _ => by simp only [w]; omega
  | .imp _ _ => by simp only [w]; omega

theorem wList_append (l₁ l₂ : List Expr) :
    wList (l₁ ++ l₂) = wList l₁ + wList l₂ := by
  induction l₁ with
  | nil => simp [wList]
  | cons e rest ih => simp [wList, ih]; omega

theorem wList_flattenAND (l : List Expr) : wList (flattenAND l) ≤ wList l := by
  induction l with
  | nil => simp [flattenAND]
  | cons e rest ih =>
    cases e <;> simp [flattenAND, wList, wList_append, w] at * <;> omega

theorem wList_flattenOR (l : List Expr) : wList (flattenOR l) ≤ wList l := by
  induction l with
  | nil => simp [flattenOR]
  | cons e rest ih =>
    cases e <;> simp [flattenOR, wList, wList_append, w] at * <;> omega

theorem w_mkAND (l : List Expr) : w (mkAND l) ≤ 1 + wList l := by
  simp only [mkAND, w]
  have := wList_flattenAND l
  omega

theorem w_mkOR (l : List Expr) : w (mkOR l) ≤ 1 + wList l := by
  simp only [mkOR, w]
  have := wList_flattenOR l
  omega

theorem w_negOp (e : Expr) : w (negOp e) ≤ 2 * w e := by
  cases e <;> (simp only [negOp, w]; omega)

theorem wList_map_negOp (l : List Expr) :
    wList (l.map negOp) ≤ 2 * wList l := by
  induction l with
  | nil => simp [wList]
  | cons e rest ih =>
    have := w_negOp e
    simp [wList] at *
    omega

theorem w_xor_equiv (a b : Expr) :
    w (XOR.get_equivalent_expr a b) ≤ 3 * (w a + w b) + 9 := by
  have h1 := w_mkAND [a, negOp b]
  have h2 := w_mkAND [negOp a, b]
  have h3 := w_mkOR [mkAND [a, negOp b], mkAND [negOp a, b]]
  have h4 := w_negOp a
  have h5 := w_negOp b
  simp only [XOR.get_equivalent_expr, orOp, andOp, wList] at *
  omega

theorem w_eq_equiv (a b : Expr) :
    w (EQ.get_equivalent_expr a b) ≤ 3 * (w a + w b) + 9 := by
  have h1 := w_mkAND [a, b]
  have h2 := w_mkAND [negOp a, negOp b]
  have h3 := w_mkOR [mkAND [a, b], mkAND [negOp a, negOp b]]
  have h4 := w_negOp a
  have h5 := w_negOp b
  simp only [EQ.get_equivalent_expr, orOp, andOp, wList] at *
  omega

theorem w_ne_equiv (a b : Expr) :
    w (NE.get_equivalent_expr a b) ≤ 3 * (w a + w b) + 9 := by
  have h1 := w_mkOR [negOp a, negOp b]
  have h2 := w_mkOR [a, b]
  have h3 := w_mkAND [mkOR [negOp a, negOp b], mkOR [a, b]]
  have h4 := w_negOp a
  have h5 := w_negOp b
  simp only [NE.get_equivalent_expr, orOp, andOp, wList] at *
  omega

theorem w_imp_equiv (a b : Expr) :
    w (IMP.get_equivalent_expr a b) ≤ 3 * (w a + w b) + 9 := by
  have h1 := w_mkOR [negOp b, a]
  have h2 := w_negOp b
  have h3 := w_pos a
  have h4 := w_pos b
  simp only [IMP.get_equivalent_expr, orOp, wList] at *
  omega

/-- Cartesian product of a list of lists, in itertools.product order:
the leftmost list varies slowest. -/
def listProd {α : Type} : List (List α) → List (List α)
  | [] => [[]]
  | c :: rest => c.flatMap fun x => (listProd rest).map fun t => x :: t

/- The CNF compiler convert_to_cnf, translated per node kind from the
source classes.  A compiled clause set is returned as its content list
of clauses (each clause the literal content of an OR node).  The source
raises ValueError when a NEG directly wraps a NEG (which the NEG
constructor assertion forbids anyway); that raise is modelled as none.

Faithfulness notes:
 - AND.convert_to_cnf returns AND(*[x for elem in content for x in
   elem.convert_to_cnf().content]): the spliced elements are OR clause
   nodes, so the AND constructor flattening is the identity and the
   result content is the concatenation of the children clause lists.
 - OR.convert_to_cnf builds OR(*x) for each x in
   itertools.product(*cnfs): each picked element is an OR clause node,
   so the OR constructor flattening concatenates their literal lists.
 - NEG.convert_to_cnf with an AND or OR inner (directly, or produced by
   get_equivalent_expr of a XOR/EQ/NE/IMP inner) negates every child
   with Expr.__neg__ and recompiles the flipped connective; since
   get_equivalent_expr always returns an AND or OR constructor result,
   compiling NEG of the rewritten node takes exactly that branch. -/
mutual

def convert_to_cnf : Expr → Option CNF
  | .var i => some [[Lit.pos i]]
  | .and c => (convertList c).map List.flatten
  | .or c => (convertList c).map fun parts => (listProd parts).map List.flatten
  | .xor a b => convert_to_cnf (XOR.get_equivalent_expr a b)
  | .eq a b => convert_to_cnf (EQ.get_equivalent_expr a b)
  | .ne a b => convert_to_cnf (NE.get_equivalent_expr a b)
  | .imp a b => convert_to_cnf (IMP.get_equivalent_expr a b)
  | .neg (.var i) => some [[Lit.neg i]]
  | .neg (.neg _) => none
  | .neg (.and c) => convert_to_cnf (mkOR (c.map negOp))
  | .neg (.or c) => convert_to_cnf (mkAND (c.map negOp))
  | .neg (.xor a b) => convert_to_cnf (.neg (XOR.get_equivalent_expr a b))
  | .neg (.eq a b) => convert_to_cnf (.neg (EQ.get_equivalent_expr a b))
  | .neg (.ne a b) => convert_to_cnf (.neg (NE.get_equivalent_expr a b))
  | .neg (.imp a b) => convert_to_cnf (.neg (IMP.get_equivalent_expr a b))
termination_by e => w e
decreasing_by
  · simp only [w]; omega
  · simp only [w]; omega
  · have := w_xor_equiv a b
    simp only [XOR.get_equivalent_expr, orOp, andOp, mkOR, mkAND, w] at this ⊢; omega
  · have := w_eq_equiv a b
    simp only [EQ.get_equivalent_expr, orOp, andOp, mkOR, mkAND, w] at this ⊢; omega
  · have := w_ne_equiv a b
    simp only [NE.get_equivalent_expr, orOp, andOp, mkOR, mkAND, w] at this ⊢; omega
  · have := w_imp_equiv a b
    simp only [IMP.get_equivalent_expr, orOp, andOp, mkOR, mkAND, w] at this ⊢; omega
  · have h1 := w_mkOR (c.map negOp)
    have h2 := wList_map_negOp c
    simp only [mkOR, w] at h1 ⊢; omega
  · have h1 := w_mkAND (c.map negOp)
    have h2 := wList_map_negOp c
    simp only [mkAND, w] at h1 ⊢; omega
  · have := w_xor_equiv a b
    simp only [XOR.get_equivalent_expr, orOp, andOp, mkOR, mkAND, w] at this ⊢; omega
  · have := w_eq_equiv a b
    simp only [EQ.get_equivalent_expr, orOp, andOp, mkOR, mkAND, w] at this ⊢; omega
  · have := w_ne_equiv a b
    simp only [NE.get_equivalent_expr, orOp, andOp, mkOR, mkAND, w] at this ⊢; omega
  · have := w_imp_equiv a b
    simp only [IMP.get_equivalent_expr, orOp, andOp, mkOR, mkAND, w] at this ⊢; omega

def convertList : List Expr → Option (List CNF)
  | [] => some []
  | e :: rest =>
    (convert_to_cnf e).bind fun c => (convertList rest).map fun cs => c :: cs
termination_by l => wList l
decreasing_by
  · simp only [wList]; omega
  · simp only [wList]; omega

end

/- Boolean semantics of expressions under a total assignment.  The
source defines no evaluator, so these are the reference semantics the
specification speaks about.

evalCode reads every node the way the source compiles it; in
particular IMP(a, b) (built by a <= b) means "b implies a", matching
IMP.get_equivalent_expr = -rhs | lhs and the repository test
test_implication, which asserts that (x <= y).convert_to_cnf() is
((!y | x)). -/
mutual

def evalCode (σ : Nat → Bool) : Expr → Bool
  | .var i => σ i
  | .neg e => ! evalCode σ e
  | .and c => evalCodeAll σ c
  | .or c => evalCodeAny σ c
  | .xor a b => Bool.xor (evalCode σ a) (evalCode σ b)
  | .eq a b => evalCode σ a == evalCode σ b
  | .ne a b => evalCode σ a != evalCode σ b
  | .imp a b => (! evalCode σ b) || evalCode σ a

def evalCodeAll (σ : Nat → Bool) : List Expr → Bool
  | [] => true
  | e :: rest => evalCode σ e && evalCodeAll σ rest

def evalCodeAny (σ : Nat → Bool) : List Expr → Bool
  | [] => false
  | e :: rest => evalCode σ e || evalCodeAny σ rest

end

/- Modelled from the spec: the specification reading of the same
semantics.  Section 4.3 fixes the reading of Implies(a, b) as "a
implies b", so evalSpec differs from evalCode exactly on the IMP node:
IMP(a, b) means "a implies b" here.  All other nodes agree. -/
mutual

def evalSpec (σ : Nat → Bool) : Expr → Bool
  | .var i => σ i
  | .neg e => ! evalSpec σ e
  | .and c => evalSpecAll σ c
  | .or c => evalSpecAny σ c
  | .xor a b => Bool.xor (evalSpec σ a) (evalSpec σ b)
  | .eq a b => evalSpec σ a == evalSpec σ b
  | .ne a b => evalSpec σ a != evalSpec σ b
  | .imp a b => (! evalSpec σ a) || evalSpec σ b

def evalSpecAll (σ : Nat → Bool) : List Expr → Bool
  | [] => true
  | e :: rest => evalSpec σ e && evalSpecAll σ rest

def evalSpecAny (σ : Nat → Bool) : List Expr → Bool
  | [] => false
  | e :: rest => evalSpec σ e || evalSpecAny σ rest

end

/-- Satisfaction of a literal by a total assignment. -/
def litSat (σ : Nat → Bool) : Lit → Bool
  | .pos i => σ i
  | .neg i => ! σ i

/-- Satisfaction of a clause: some literal of the OR is true. -/
def clauseSat (σ : Nat → Bool) (cl : Clause) : Bool :=
  cl.any (litSat σ)

/-- Satisfaction of a clause set: every clause is satisfied. -/
def cnfSat (σ : Nat → Bool) (c : CNF) : Bool :=
  c.all (clauseSat σ)

/-- A SAT variable (class Var): a name, an id and an optional solved
value (None until set_value is called). -/
structure SatVar where
  name : String
  id : Nat
  value : Option Bool
deriving DecidableEq

/-- The SATModel state: the id-indexed variable dict, the name-indexed
variable dict, the insertion-ordered variable list and the constraint
list.  Python dicts preserve insertion order, so both dicts are
modelled as insertion-ordered association lists with unique keys.  In
the source all three views alias the same Var objects. -/
structure SATModel where
  vars : List (Nat × SatVar)
  variables_name : List (String × SatVar)
  lst_variables : List SatVar
  constraints : List Expr

/-- The empty model state set up by SATModel.__init__. -/
def SATModel.init : SATModel := ⟨[], [], [], []⟩

/-- Dict lookup by id key: first (unique) binding, KeyError as none. -/
def lookupId (l : List (Nat × SatVar)) (k : Nat) : Option SatVar :=
  (l.find? fun p => p.1 == k).map Prod.snd

/-- The while loop of __get_new_id: starting at 1, keep incrementing
while the id is taken.  The loop makes at most one step per existing
key, so fuel length + 1 is enough and the model is exact. -/
def nextFreeAux (keys : List Nat) : Nat → Nat → Nat
  | 0, cur => cur
  | fuel + 1, cur => if cur ∈ keys then nextFreeAux keys fuel (cur + 1) else cur

/-- SATModel.__get_new_id: the requested abs(id_) when id_ is nonzero,
else the smallest positive id not yet taken. -/
def SATModel.get_new_id (m : SATModel) (id_ : Int) : Nat :=
  if id_ = 0 then nextFreeAux (m.vars.map Prod.fst) (m.vars.length + 1) 1
  else id_.natAbs

/-- SATModel.add_variable: compute the id, check the id dict, check the
name dict, and only then insert the new variable into all three views.
A raised ValueError is modelled as the error component, with the state
returned unchanged (the source mutates nothing before raising). -/
def SATModel.add_variable (m : SATModel) (name : String) (id_ : Int) :
    SATModel × Except String SatVar :=
  let new_id := m.get_new_id id_
  if m.vars.any fun p => p.1 == new_id then
    (m, .error ("Could not add_variable, the id " ++ toString new_id ++ " is already used."))
  else if m.variables_name.any fun p => p.1 == name then
    (m, .error ("Could not add_variable, the name " ++ name ++ " is already used."))
  else
    let new_var : SatVar := ⟨name, new_id, none⟩
    ({ vars := m.vars ++ [(new_id, new_var)],
       variables_name := m.variables_name ++ [(name, new_var)],
       lst_variables := m.lst_variables ++ [new_var],
       constraints := m.constraints },
     .ok new_var)

/-- SATModel.add_constraint_expr: append the expression. -/
def SATModel.add_constraint_expr (m : SATModel) (e : Expr) : SATModel :=
  { m with constraints := m.constraints ++ [e] }

/-- SATModel.get_variable_with_id: dict access by abs(id_). -/
def SATModel.get_variable_with_id (m : SATModel) (id_ : Int) : Option SatVar :=
  lookupId m.vars id_.natAbs

/-- Var.set_value performed on the shared Var object with the given id:
the mutation is visible through all three views of the registry. -/
def SATModel.set_var_value (m : SATModel) (var_id : Int) (b : Bool) : SATModel :=
  { vars := m.vars.map fun p =>
      if (p.1 : Int) = var_id then (p.1, { p.2 with value := some b }) else p,
    variables_name := m.variables_name.map fun p =>
      if (p.2.id : Int) = var_id then (p.1, { p.2 with value := some b }) else p,
    lst_variables := m.lst_variables.map fun v =>
      if (v.id : Int) = var_id then { v with value := some b } else v,
    constraints := m.constraints }

/-- The status strings of SolverStatusCode.get_values(). -/
def solverStatusCodes : List String :=
  ["infeasible", "interrupted", "notstarted", "optimal", "satisfiable",
   "unbounded", "unsatisfiable"]

/-- One variable entry of the solver response: var.name parsed as an
integer id, and var.value parsed as an integer. -/
structure ResultVar where
  name : Int
  value : Int

/-- The solver response object consumed by _process_solution. -/
structure ResultObj where
  status : String
  vars : List ResultVar

/-- SATModel._process_solution: raise on an unknown status, then for
each result variable set its value only when its id is a key of the
variable dict; other entries are skipped.  Returns the status. -/
def SATModel.process_solution (m : SATModel) (result_obj : ResultObj) :
    Except String (SATModel × String) :=
  if result_obj.status ∉ solverStatusCodes then
    .error "solver status unknown"
  else
    .ok (result_obj.vars.foldl
      (fun acc var =>
        if acc.vars.any fun p => (p.1 : Int) == var.name then
          acc.set_var_value var.name (var.value == 1)
        else acc) m,
      result_obj.status)

/-- A value of a Python list supplied to add_constraint_vector: an int,
or some value of any other type. -/
inductive PyVal where
  | int (i : Int)
  | nonInt
deriving DecidableEq

/-- Whether type(v) is int. -/
def PyVal.isInt : PyVal → Bool
  | .int _ => true
  | .nonInt => false

/-- SATModel.__add_id: abs() raises TypeError on a non-int; an int id
whose abs is not yet a key is registered as variable "x" + str(abs(id))
with requested id abs(id). -/
def SATModel.add_id (m : SATModel) (v : PyVal) : SATModel × Except String Unit :=
  match v with
  | .nonInt => (m, .error "TypeError: bad operand type for abs")
  | .int i =>
    let a_id := i.natAbs
    if m.vars.any fun p => p.1 == a_id then (m, .ok ())
    else
      let r := m.add_variable ("x" ++ toString a_id) (a_id : Int)
      (r.1, r.2.map fun _ => ())

/-- SATModel.__get_var: negative ids return the negation of the
variable stored under abs(id); dict access raises KeyError when the id
is not a key. -/
def SATModel.get_var (m : SATModel) (v : PyVal) : Except String Expr :=
  match v with
  | .nonInt => .error "TypeError: list indices must be integers"
  | .int i =>
    if i < 0 then
      match lookupId m.vars i.natAbs with
      | none => .error ("KeyError: " ++ toString i.natAbs)
      | some var => .ok (negOp (.var var.id))
    else
      match lookupId m.vars i.natAbs with
      | none => .error ("KeyError: " ++ toString i.natAbs)
      | some var => .ok (.var var.id)

/-- Mapping __get_var over the vector entries, stopping at the first
raised exception. -/
def SATModel.get_vars (m : SATModel) : List PyVal → Except String (List Expr)
  | [] => .ok []
  | v :: rest =>
    match m.get_var v with
    | .error e => .error e
    | .ok x =>
      match m.get_vars rest with
      | .error e => .error e
      | .ok xs => .ok (x :: xs)

/-- SATModel.add_constraint_vector: return immediately on an empty
list; raise the validation ValueError when the entries are not all ints
AND no entry equals 0 (the condition as literally written in the
source); otherwise register ids in order (each step may raise), then
fold OR over the variables with reduce and append the constraint. -/
def SATModel.add_constraint_vector (m : SATModel) (lst : List PyVal) :
    SATModel × Except String Unit :=
  if lst.isEmpty then (m, .ok ())
  else if ¬ (lst.all PyVal.isInt) ∧ ¬ (lst.contains (.int 0)) then
    (m, .error ("Could not add a constraint." ++
      "The values in the list must be integers and != 0"))
  else
    let after := lst.foldl
      (fun (acc : SATModel × Except String Unit) v =>
        match acc.2 with
        | .error _ => acc
        | .ok _ => acc.1.add_id v) (m, .ok ())
    match after.2 with
    | .error e => (after.1, .error e)
    | .ok _ =>
      match after.1.get_vars lst with
      | .error e => (after.1, .error e)
      | .ok [] => (after.1, .error "TypeError: reduce of empty iterable")
      | .ok (x :: xs) =>
        (after.1.add_constraint_expr (xs.foldl orOp x), .ok ())

/-- Var.get_cnf_str and NEG.get_cnf_str: the literal text of the DIMACS
serialization. -/
def Lit.get_cnf_str : Lit → String
  | .pos i => toString i
  | .neg i => "-" ++ toString i

/-- OR.get_cnf_str: literals joined by single spaces, then the sentinel
" 0". -/
def clause_cnf_str (cl : Clause) : String :=
  String.intercalate " " (cl.map Lit.get_cnf_str) ++ " 0"

/-- SATModel.build_str_model: compile every constraint in order,
concatenate the clause lists, and emit the DIMACS header followed by
one line per clause.  A compilation error propagates. -/
def SATModel.build_str_model (m : SATModel) : Option String :=
  (convertList m.constraints).map fun parts =>
    let clauses := parts.flatten
    "p cnf " ++ toString m.vars.length ++ " " ++ toString clauses.length ++ "\n"
      ++ String.intercalate "\n" (clauses.map clause_cnf_str)

/-- The scenario model of C2: variables x (id 1), y (id 2), z (id 3)
and the constraints (x & y) | z and (-x) & (-y), in that order. -/
def scenario_model : SATModel :=
  { vars := [(1, ⟨"x", 1, none⟩), (2, ⟨"y", 2, none⟩), (3, ⟨"z", 3, none⟩)],
    variables_name := [("x", ⟨"x", 1, none⟩), ("y", ⟨"y", 2, none⟩), ("z", ⟨"z", 3, none⟩)],
    lst_variables := [⟨"x", 1, none⟩, ⟨"y", 2, none⟩, ⟨"z", 3, none⟩],
    constraints := [orOp (andOp (.var 1) (.var 2)) (.var 3),
                    andOp (negOp (.var 1)) (negOp (.var 2))] }


theorem evalCode_neg (σ : Nat → Bool) (e : Expr) :
    evalCode σ (.neg e) = ! evalCode σ e := rfl

theorem evalCode_negOp (σ : Nat → Bool) (e : Expr) :
    evalCode σ (negOp e) = ! evalCode σ e := by
  cases e <;> simp [negOp, evalCode]

theorem evalCodeAll_append (σ : Nat → Bool) (l₁ l₂ : List Expr) :
    evalCodeAll σ (l₁ ++ l₂) = (evalCodeAll σ l₁ && evalCodeAll σ l₂) := by
  induction l₁ with
  | nil => simp [evalCodeAll]
  | cons e rest ih => simp [evalCodeAll, ih, Bool.and_assoc]

theorem evalCodeAny_append (σ : Nat → Bool) (l₁ l₂ : List Expr) :
    evalCodeAny σ (l₁ ++ l₂) = (evalCodeAny σ l₁ || evalCodeAny σ l₂) := by
  induction l₁ with
  | nil => simp [evalCodeAny]
  | cons e rest ih => simp [evalCodeAny, ih, Bool.or_assoc]

theorem evalCodeAll_flattenAND (σ : Nat → Bool) (l : List Expr) :
    evalCodeAll σ (flattenAND l) = evalCodeAll σ l := by
  induction l with
  | nil => simp [flattenAND]
  | cons e rest ih =>
    cases e <;> simp [flattenAND, evalCodeAll, evalCodeAll_append, evalCode, ih]

theorem evalCodeAny_flattenOR (σ : Nat → Bool) (l : List Expr) :
    evalCodeAny σ (flattenOR l) = evalCodeAny σ l := by
  induction l with
  | nil => simp [flattenOR]
  | cons e rest ih =>
    cases e <;> simp [flattenOR, evalCodeAny, evalCodeAny_append, evalCode, ih]

theorem evalCode_mkAND (σ : Nat → Bool) (l : List Expr) :
    evalCode σ (mkAND l) = evalCodeAll σ l := by
  simp [mkAND, evalCode, evalCodeAll_flattenAND]

theorem evalCode_mkOR (σ : Nat → Bool) (l : List Expr) :
    evalCode σ (mkOR l) = evalCodeAny σ l := by
  simp [mkOR, evalCode, evalCodeAny_flattenOR]

theorem evalCodeAny_map_negOp (σ : Nat → Bool) (l : List Expr) :
    evalCodeAny σ (l.map negOp) = ! evalCodeAll σ l := by
  induction l with
  | nil => simp [evalCodeAny, evalCodeAll]
  | cons e rest ih => simp [evalCodeAny, evalCodeAll, evalCode_negOp, ih]

theorem evalCodeAll_map_negOp (σ : Nat → Bool) (l : List Expr) :
    evalCodeAll σ (l.map negOp) = ! evalCodeAny σ l := by
  induction l with
  | nil => simp [evalCodeAny, evalCodeAll]
  | cons e rest ih => simp [evalCodeAny, evalCodeAll, evalCode_negOp, ih]

theorem evalCode_andOp (σ : Nat → Bool) (a b : Expr) :
    evalCode σ (andOp a b) = (evalCode σ a && evalCode σ b) := by
  simp [andOp, evalCode_mkAND, evalCodeAll]

theorem evalCode_orOp (σ : Nat → Bool) (a b : Expr) :
    evalCode σ (orOp a b) = (evalCode σ a || evalCode σ b) := by
  simp [orOp, evalCode_mkOR, evalCodeAny]

/-- The XOR rewrite is truth-functionally faithful. -/
theorem evalCode_xor_equiv (σ : Nat → Bool) (a b : Expr) :
    evalCode σ (XOR.get_equivalent_expr a b) = evalCode σ (.xor a b) := by
  unfold XOR.get_equivalent_expr
  rw [evalCode_orOp, evalCode_andOp, evalCode_andOp, evalCode_negOp, evalCode_negOp]
  simp only [evalCode]
  cases evalCode σ a <;> cases evalCode σ b <;> rfl

/-- The EQ rewrite is truth-functionally faithful. -/
theorem evalCode_eq_equiv (σ : Nat → Bool) (a b : Expr) :
    evalCode σ (EQ.get_equivalent_expr a b) = evalCode σ (.eq a b) := by
  unfold EQ.get_equivalent_expr
  rw [evalCode_orOp, evalCode_andOp, evalCode_andOp, evalCode_negOp, evalCode_negOp]
  simp only [evalCode]
  cases evalCode σ a <;> cases evalCode σ b <;> rfl

/-- The NE rewrite is truth-functionally faithful. -/
theorem evalCode_ne_equiv (σ : Nat → Bool) (a b : Expr) :
    evalCode σ (NE.get_equivalent_expr a b) = evalCode σ (.ne a b) := by
  unfold NE.get_equivalent_expr
  rw [evalCode_andOp, evalCode_orOp, evalCode_orOp, evalCode_negOp, evalCode_negOp]
  simp only [evalCode]
  cases evalCode σ a <;> cases evalCode σ b <;> rfl

/-- The IMP rewrite is truth-functionally faithful to the code reading
of IMP(a, b) as "b implies a". -/
theorem evalCode_imp_equiv (σ : Nat → Bool) (a b : Expr) :
    evalCode σ (IMP.get_equivalent_expr a b) = evalCode σ (.imp a b) := by
  unfold IMP.get_equivalent_expr
  rw [evalCode_orOp, evalCode_negOp]
  simp only [evalCode]

theorem clauseSat_append (σ : Nat → Bool) (c₁ c₂ : Clause) :
    clauseSat σ (c₁ ++ c₂) = (clauseSat σ c₁ || clauseSat σ c₂) := by
  simp [clauseSat, List.any_append]

theorem cnfSat_append (σ : Nat → Bool) (c₁ c₂ : CNF) :
    cnfSat σ (c₁ ++ c₂) = (cnfSat σ c₁ && cnfSat σ c₂) := by
  simp [cnfSat, List.all_append]

theorem cnfSat_flatten (σ : Nat → Bool) (parts : List CNF) :
    cnfSat σ parts.flatten = parts.all (cnfSat σ) := by
  induction parts with
  | nil => simp [cnfSat]
  | cons p rest ih =>
    simp only [List.flatten_cons, cnfSat, List.all_append, List.all_cons] at *
    rw [ih]

/-- Boolean distribution of a fixed disjunct over a conjunction of
conjunctions. -/
theorem all_or_all {α β : Type} (A : List α) (B : List β) (p : α → Bool) (q : β → Bool) :
    (A.all fun a => B.all fun b => p a || q b) = (A.all p || B.all q) := by
  induction A with
  | nil => simp
  | cons a A ih =>
    simp only [List.all_cons, ih]
    cases hpa : p a
    · cases hB : B.all q <;> simp [hB]
    · simp

/-- One factor of the OR distribution: prefixing every product pick
with a fixed clause x disjoins clauseSat x into the whole product. -/
theorem cnfSat_prod_prefix (σ : Nat → Bool) (x : Clause) (M : List (List Clause)) :
    cnfSat σ ((M.map fun t => x :: t).map List.flatten)
      = (clauseSat σ x || cnfSat σ (M.map List.flatten)) := by
  induction M with
  | nil => simp [cnfSat]
  | cons t M ihM =>
    simp only [List.map_cons, cnfSat, List.all_cons] at *
    rw [ihM, List.flatten_cons, clauseSat_append]
    cases clauseSat σ x <;> cases clauseSat σ t.flatten <;> simp

/-- Satisfying every product clause of the OR distribution is the same
as satisfying all clauses of at least one factor. -/
theorem cnfSat_listProd (σ : Nat → Bool) (parts : List CNF) :
    cnfSat σ ((listProd parts).map List.flatten) = parts.any (cnfSat σ) := by
  induction parts with
  | nil => simp [listProd, cnfSat, clauseSat]
  | cons p rest ih =>
    simp only [listProd]
    have inner : ∀ q : CNF,
        cnfSat σ (((q.flatMap fun y => (listProd rest).map fun t => y :: t)).map List.flatten)
          = (cnfSat σ q || cnfSat σ ((listProd rest).map List.flatten)) := by
      intro q
      induction q with
      | nil => simp [cnfSat]
      | cons y q' ihq =>
        rw [List.flatMap_cons, List.map_append, cnfSat_append, ihq,
          cnfSat_prod_prefix]
        simp only [cnfSat, List.all_cons]
        cases clauseSat σ y <;>
          cases hq : List.all q' (clauseSat σ) <;>
          cases hs : cnfSat σ ((listProd rest).map List.flatten) <;> simp [cnfSat, hq, hs]
    rw [inner p, ih]
    simp [cnfSat]

theorem w_mem {e : Expr} : ∀ {l : List Expr}, e ∈ l → w e + 1 ≤ wList l := by
  intro l hm
  induction l with
  | nil => cases hm
  | cons x rest ih =>
    rcases List.mem_cons.mp hm with h | h
    · subst h; simp only [wList]; omega
    · have := ih h; simp only [wList]; omega

/-- convertList succeeds exactly when each child compiles, pairing each
child with its clause set. -/
theorem convertList_forall₂ (σ : Nat → Bool) :
    ∀ (l : List Expr) (parts : List CNF),
    (∀ e ∈ l, ∀ c, convert_to_cnf e = some c → cnfSat σ c = evalCode σ e) →
    convertList l = some parts →
    List.Forall₂ (fun e c => convert_to_cnf e = some c ∧ cnfSat σ c = evalCode σ e) l parts := by
  intro l
  induction l with
  | nil =>
    intro parts _ h
    simp only [convertList] at h
    cases h
    exact .nil
  | cons e rest ih =>
    intro parts hpt h
    simp only [convertList, Option.bind_eq_some, Option.map_eq_some'] at h
    obtain ⟨c, hc, cs, hcs, rfl⟩ := h
    refine .cons ⟨hc, hpt e (by simp) c hc⟩ ?_
    exact ih cs (fun x hx => hpt x (by simp [hx])) hcs

theorem forall₂_all (σ : Nat → Bool) :
    ∀ (l : List Expr) (parts : List CNF),
    List.Forall₂ (fun e c => convert_to_cnf e = some c ∧ cnfSat σ c = evalCode σ e) l parts →
    parts.all (cnfSat σ) = evalCodeAll σ l := by
  intro l parts h
  induction h with
  | nil => simp [evalCodeAll]
  | cons hec _ ih => simp [evalCodeAll, ih, hec.2]

theorem forall₂_any (σ : Nat → Bool) :
    ∀ (l : List Expr) (parts : List CNF),
    List.Forall₂ (fun e c => convert_to_cnf e = some c ∧ cnfSat σ c = evalCode σ e) l parts →
    parts.any (cnfSat σ) = evalCodeAny σ l := by
  intro l parts h
  induction h with
  | nil => simp [evalCodeAny]
  | cons hec _ ih => simp [evalCodeAny, ih, hec.2]

/-- Soundness and completeness of the CNF compiler with respect to the
code reading of the operators: whenever compilation succeeds, an
assignment satisfies the compiled clause set exactly when it satisfies
the source expression. -/
theorem convert_to_cnf_sound_bounded (σ : Nat → Bool) :
    ∀ (n : Nat) (e : Expr), w e ≤ n →
      ∀ c, convert_to_cnf e = some c → cnfSat σ c = evalCode σ e := by
  intro n
  induction n with
  | zero =>
    intro e he
    have := w_pos e
    omega
  | succ n ih =>
    intro e he c hc
    cases e with
    | var i =>
      simp only [convert_to_cnf, Option.some.injEq] at hc
      subst hc
      simp [cnfSat, clauseSat, litSat, evalCode]
    | and content =>
      simp only [convert_to_cnf, Option.map_eq_some'] at hc
      obtain ⟨parts, hparts, rfl⟩ := hc
      have hpt : ∀ x ∈ content, ∀ c', convert_to_cnf x = some c' →
          cnfSat σ c' = evalCode σ x := by
        intro x hx c' hc'
        have hw := w_mem hx
        simp only [w] at he
        exact ih x (by omega) c' hc'
      have h2 := convertList_forall₂ σ content parts hpt hparts
      rw [cnfSat_flatten, forall₂_all σ content parts h2]
      simp [evalCode]
    | or content =>
      simp only [convert_to_cnf, Option.map_eq_some'] at hc
      obtain ⟨parts, hparts, rfl⟩ := hc
      have hpt : ∀ x ∈ content, ∀ c', convert_to_cnf x = some c' →
          cnfSat σ c' = evalCode σ x := by
        intro x hx c' hc'
        have hw := w_mem hx
        simp only [w] at he
        exact ih x (by omega) c' hc'
      have h2 := convertList_forall₂ σ content parts hpt hparts
      rw [cnfSat_listProd, forall₂_any σ content parts h2]
      simp [evalCode]
    | xor a b =>
      simp only [convert_to_cnf] at hc
      have hw : w (XOR.get_equivalent_expr a b) ≤ n := by
        have := w_xor_equiv a b
        simp only [w] at he
        omega
      rw [ih _ hw c hc, evalCode_xor_equiv]
    | eq a b =>
      simp only [convert_to_cnf] at hc
      have hw : w (EQ.get_equivalent_expr a b) ≤ n := by
        have := w_eq_equiv a b
        simp only [w] at he
        omega
      rw [ih _ hw c hc, evalCode_eq_equiv]
    | ne a b =>
      simp only [convert_to_cnf] at hc
      have hw : w (NE.get_equivalent_expr a b) ≤ n := by
        have := w_ne_equiv a b
        simp only [w] at he
        omega
      rw [ih _ hw c hc, evalCode_ne_equiv]
    | imp a b =>
      simp only [convert_to_cnf] at hc
      have hw : w (IMP.get_equivalent_expr a b) ≤ n := by
        have := w_imp_equiv a b
        simp only [w] at he
        omega
      rw [ih _ hw c hc, evalCode_imp_equiv]
    | neg inner =>
      cases inner with
      | var i =>
        simp only [convert_to_cnf, Option.some.injEq] at hc
        subst hc
        simp [cnfSat, clauseSat, litSat, evalCode]
      | neg j =>
        simp only [convert_to_cnf] at hc
        exact Option.noConfusion hc
      | and content =>
        simp only [convert_to_cnf] at hc
        have hw : w (mkOR (content.map negOp)) ≤ n := by
          have h1 := w_mkOR (content.map negOp)
          have h2 := wList_map_negOp content
          simp only [w] at he
          omega
        rw [ih _ hw c hc, evalCode_mkOR, evalCodeAny_map_negOp]
        simp [evalCode]
      | or content =>
        simp only [convert_to_cnf] at hc
        have hw : w (mkAND (content.map negOp)) ≤ n := by
          have h1 := w_mkAND (content.map negOp)
          have h2 := wList_map_negOp content
          simp only [w] at he
          omega
        rw [ih _ hw c hc, evalCode_mkAND, evalCodeAll_map_negOp]
        simp [evalCode]
      | xor a b =>
        simp only [convert_to_cnf] at hc
        have hw : w (Expr.neg (XOR.get_equivalent_expr a b)) ≤ n := by
          have := w_xor_equiv a b
          simp only [XOR.get_equivalent_expr, orOp, andOp, mkOR, mkAND, w] at this he ⊢
          omega
        rw [ih _ hw c hc, evalCode_neg, evalCode_neg, evalCode_xor_equiv]
      | eq a b =>
        simp only [convert_to_cnf] at hc
        have hw : w (Expr.neg (EQ.get_equivalent_expr a b)) ≤ n := by
          have := w_eq_equiv a b
          simp only [EQ.get_equivalent_expr, orOp, andOp, mkOR, mkAND, w] at this he ⊢
          omega
        rw [ih _ hw c hc, evalCode_neg, evalCode_neg, evalCode_eq_equiv]
      | ne a b =>
        simp only [convert_to_cnf] at hc
        have hw : w (Expr.neg (NE.get_equivalent_expr a b)) ≤ n := by
          have := w_ne_equiv a b
          simp only [NE.get_equivalent_expr, orOp, andOp, mkOR, mkAND, w] at this he ⊢
          omega
        rw [ih _ hw c hc, evalCode_neg, evalCode_neg, evalCode_ne_equiv]
      | imp a b =>
        simp only [convert_to_cnf] at hc
        have hw : w (Expr.neg (IMP.get_equivalent_expr a b)) ≤ n := by
          have := w_imp_equiv a b
          simp only [IMP.get_equivalent_expr, orOp, andOp, mkOR, mkAND, w] at this he ⊢
          omega
        rw [ih _ hw c hc, evalCode_neg, evalCode_neg, evalCode_imp_equiv]

/-- Unbounded form of the compiler soundness theorem. -/
theorem convert_to_cnf_sound (σ : Nat → Bool) (e : Expr) (c : CNF)
    (hc : convert_to_cnf e = some c) : cnfSat σ c = evalCode σ e :=
  convert_to_cnf_sound_bounded σ (w e) e (le_refl _) c hc

/-- C7: negating twice with the unary negation operator returns the
original expression, and a negation produced by the operator never
directly wraps another negation; the hypothesis excludes the directly
doubly-negated trees that the NEG constructor assertion rules out. -/
theorem c7_double_negation (e : Expr) (h : ∀ i, e ≠ Expr.neg (Expr.neg i)) :
    negOp (negOp e) = e ∧ ∀ i, negOp e = Expr.neg i → ∀ j, i ≠ Expr.neg j := by
  cases e with
  | neg inner =>
    constructor
    · show negOp inner = Expr.neg inner
      cases inner with
      | neg j => exact absurd rfl (h j)
      | var k => rfl
      | and c => rfl
      | or c => rfl
      | xor a b => rfl
      | eq a b => rfl
      | ne a b => rfl
      | imp a b => rfl
    · intro i hi j hj
      simp only [negOp] at hi
      exact h i (by rw [hi])
  | var k =>
    refine ⟨rfl, ?_⟩
    intro i hi j hj
    simp only [negOp, Expr.neg.injEq] at hi
    subst hi
    exact Expr.noConfusion hj
  | and c =>
    refine ⟨rfl, ?_⟩
    intro i hi j hj
    simp only [negOp, Expr.neg.injEq] at hi
    subst hi
    exact Expr.noConfusion hj
  | or c =>
    refine ⟨rfl, ?_⟩
    intro i hi j hj
    simp only [negOp, Expr.neg.injEq] at hi
    subst hi
    exact Expr.noConfusion hj
  | xor a b =>
    refine ⟨rfl, ?_⟩
    intro i hi j hj
    simp only [negOp, Expr.neg.injEq] at hi
    subst hi
    exact Expr.noConfusion hj
  | eq a b =>
    refine ⟨rfl, ?_⟩
    intro i hi j hj
    simp only [negOp, Expr.neg.injEq] at hi
    subst hi
    exact Expr.noConfusion hj
  | ne a b =>
    refine ⟨rfl, ?_⟩
    intro i hi j hj
    simp only [negOp, Expr.neg.injEq] at hi
    subst hi
    exact Expr.noConfusion hj
  | imp a b =>
    refine ⟨rfl, ?_⟩
    intro i hi j hj
    simp only [negOp, Expr.neg.injEq] at hi
    subst hi
    exact Expr.noConfusion hj

/-- C7 witness at the concrete expression Var 1. -/
theorem c7_double_negation_witness :
    negOp (negOp (Expr.var 1)) = Expr.var 1 ∧
      ∀ i, negOp (Expr.var 1) = Expr.neg i → ∀ j, i ≠ Expr.neg j :=
  c7_double_negation (Expr.var 1) (fun _ h => Expr.noConfusion h)

/-- C3 counterexample: at lhs = Var 1 and rhs = Var 2 the rewrite of
IMP is not the disjunction of the negated left-hand side with the
right-hand side, and under the assignment making only Var 2 true the
rewrite disagrees with the specification reading of the implication. -/
theorem c3_counterexample :
    IMP.get_equivalent_expr (Expr.var 1) (Expr.var 2)
        ≠ orOp (negOp (Expr.var 1)) (Expr.var 2) ∧
    evalSpec (fun i => decide (i = 2)) (Expr.imp (Expr.var 1) (Expr.var 2)) = true ∧
    evalSpec (fun i => decide (i = 2))
        (IMP.get_equivalent_expr (Expr.var 1) (Expr.var 2)) = false := by
  refine ⟨?_, rfl, rfl⟩
  intro h
  simp [IMP.get_equivalent_expr, orOp, mkOR, flattenOR, negOp] at h

/-- C3 amended: the rewrite of IMP(a, b) is the disjunction of the
negated right-hand side with the unmodified left-hand side, and it is
truth-functionally equivalent to the IMP node as the code reads it. -/
theorem c3_amended (a b : Expr) :
    IMP.get_equivalent_expr a b = orOp (negOp b) a ∧
      ∀ σ, evalCode σ (IMP.get_equivalent_expr a b)
        = ((! evalCode σ b) || evalCode σ a) := by
  refine ⟨rfl, fun σ => ?_⟩
  unfold IMP.get_equivalent_expr
  rw [evalCode_orOp, evalCode_negOp]

/-- C8: compiling NEG(AND(a, b)) and compiling OR(neg a, neg b) give
clause sets with the same satisfying assignments. -/
theorem c8_de_morgan (a b : Expr) (c₁ c₂ : CNF) (σ : Nat → Bool)
    (h₁ : convert_to_cnf (negOp (andOp a b)) = some c₁)
    (h₂ : convert_to_cnf (orOp (negOp a) (negOp b)) = some c₂) :
    cnfSat σ c₁ = cnfSat σ c₂ := by
  rw [convert_to_cnf_sound σ _ _ h₁, convert_to_cnf_sound σ _ _ h₂]
  rw [evalCode_negOp, evalCode_andOp, evalCode_orOp, evalCode_negOp, evalCode_negOp]
  cases evalCode σ a <;> cases evalCode σ b <;> rfl

/-- C8 witness at a = Var 1, b = Var 2 and the all-false assignment. -/
theorem c8_de_morgan_witness :
    convert_to_cnf (negOp (andOp (Expr.var 1) (Expr.var 2)))
        = some [[Lit.neg 1, Lit.neg 2]] ∧
    convert_to_cnf (orOp (negOp (Expr.var 1)) (negOp (Expr.var 2)))
        = some [[Lit.neg 1, Lit.neg 2]] ∧
    cnfSat (fun _ => false) [[Lit.neg 1, Lit.neg 2]]
        = cnfSat (fun _ => false) [[Lit.neg 1, Lit.neg 2]] := by
  have h₁ : convert_to_cnf (negOp (andOp (Expr.var 1) (Expr.var 2)))
      = some [[Lit.neg 1, Lit.neg 2]] := by
    simp [convert_to_cnf, convertList, andOp, mkAND, flattenAND, negOp,
      mkOR, flattenOR, listProd]
  have h₂ : convert_to_cnf (orOp (negOp (Expr.var 1)) (negOp (Expr.var 2)))
      = some [[Lit.neg 1, Lit.neg 2]] := by
    simp [convert_to_cnf, convertList, orOp, mkOR, flattenOR, negOp, listProd]
  exact ⟨h₁, h₂, c8_de_morgan (Expr.var 1) (Expr.var 2) _ _ (fun _ => false) h₁ h₂⟩

/-- C1 counterexample: for the expression IMP(Var 1, Var 2) built by
Var 1 <= Var 2, under the assignment Var 1 false and Var 2 true, the
expression is satisfied in the specification reading but the compiled
clause set is not. -/
theorem c1_counterexample :
    convert_to_cnf (Expr.imp (Expr.var 1) (Expr.var 2))
        = some [[Lit.neg 2, Lit.pos 1]] ∧
    evalSpec (fun i => decide (i = 2)) (Expr.imp (Expr.var 1) (Expr.var 2)) = true ∧
    cnfSat (fun i => decide (i = 2)) [[Lit.neg 2, Lit.pos 1]] = false := by
  refine ⟨?_, rfl, rfl⟩
  simp [convert_to_cnf, convertList, IMP.get_equivalent_expr, orOp, mkOR,
    flattenOR, negOp, listProd]

/-- C1 amended: with the implication node read the way the code
compiles it (IMP(a, b) holds when b implies a), a total assignment
satisfies an expression exactly when it satisfies every clause of the
compiled clause set, whenever compilation succeeds. -/
theorem c1_roundtrip (e : Expr) (c : CNF) (σ : Nat → Bool)
    (h : convert_to_cnf e = some c) :
    evalCode σ e = true ↔ ∀ cl ∈ c, clauseSat σ cl = true := by
  rw [← convert_to_cnf_sound σ e c h]
  simp [cnfSat, List.all_eq_true]

/-- C1 witness at the expression AND(Var 1, Var 2) and the all-true
assignment. -/
theorem c1_roundtrip_witness :
    evalCode (fun _ => true) (andOp (Expr.var 1) (Expr.var 2)) = true ↔
      ∀ cl ∈ [[Lit.pos 1], [Lit.pos 2]], clauseSat (fun _ => true) cl = true :=
  c1_roundtrip (andOp (Expr.var 1) (Expr.var 2)) [[Lit.pos 1], [Lit.pos 2]]
    (fun _ => true)
    (by simp [convert_to_cnf, convertList, andOp, mkAND, flattenAND])

/-- C10: adding an empty constraint vector returns immediately and
changes nothing in the model. -/
theorem c10_empty_vector (m : SATModel) :
    m.add_constraint_vector [] = (m, Except.ok ()) := rfl

/-- The scenario model is exactly what the public API builds: three
auto-id add_variable calls followed by the two constraints. -/
theorem scenario_model_from_api :
    scenario_model =
      ((((SATModel.init.add_variable "x" 0).1.add_variable "y" 0).1.add_variable
          "z" 0).1.add_constraint_expr
        (orOp (andOp (.var 1) (.var 2)) (.var 3))).add_constraint_expr
        (andOp (negOp (.var 1)) (negOp (.var 2))) := rfl

/-- C2: the serialized model is the DIMACS header p cnf 3 4 followed by
the clause lines 1 3 0, 2 3 0, -1 0, -2 0 in exactly that order. -/
theorem c2_scenario_serialization :
    scenario_model.build_str_model =
      some "p cnf 3 4\n1 3 0\n2 3 0\n-1 0\n-2 0" := by
  have hc : convertList scenario_model.constraints =
      some [[[Lit.pos 1, Lit.pos 3], [Lit.pos 2, Lit.pos 3]],
            [[Lit.neg 1], [Lit.neg 2]]] := by
    simp [scenario_model, convertList, convert_to_cnf, orOp, andOp, mkOR,
      mkAND, flattenOR, flattenAND, negOp, listProd]
  unfold SATModel.build_str_model
  rw [hc]
  rfl

/-- Inversion of a successful add_variable call: the requested id was
free, the variable is the fresh one, and the registry views grew by
exactly the new entry. -/
theorem add_variable_ok (m : SATModel) (name : String) (id_ : Int)
    (m' : SATModel) (v : SatVar)
    (h : m.add_variable name id_ = (m', .ok v)) :
    v = ⟨name, m.get_new_id id_, none⟩ ∧
    (m.vars.any fun p => p.1 == m.get_new_id id_) = false ∧
    m'.vars = m.vars ++ [(m.get_new_id id_, v)] := by
  unfold SATModel.add_variable at h
  dsimp only [] at h
  by_cases h1 : (m.vars.any fun p => p.1 == m.get_new_id id_) = true
  · rw [if_pos h1] at h
    simp at h
  · rw [if_neg h1] at h
    by_cases h2 : (m.variables_name.any fun p => p.1 == name) = true
    · rw [if_pos h2] at h
      simp at h
    · rw [if_neg h2] at h
      simp only [Prod.mk.injEq, Except.ok.injEq] at h
      obtain ⟨hm, hv⟩ := h
      subst hv
      refine ⟨rfl, Bool.eq_false_iff.mpr h1, ?_⟩
      rw [← hm]

/-- Lookup skips an association-list prefix holding no matching key. -/
theorem lookupId_append_of_no_key (l rest : List (Nat × SatVar)) (k : Nat)
    (h : (l.any fun p => p.1 == k) = false) :
    lookupId (l ++ rest) k = lookupId rest k := by
  induction l with
  | nil => rfl
  | cons p l ih =>
    simp only [List.any_cons, Bool.or_eq_false_iff] at h
    simp only [List.cons_append, lookupId, List.find?_cons, h.1]
    exact ih h.2

/-- C9: after any successful registration, get_variable_with_id finds
the new variable from any integer whose absolute value is its id; in
particular the negated id succeeds, because lookup uses abs. -/
theorem c9_lookup_abs_id (m : SATModel) (name : String) (id_ : Int)
    (m' : SATModel) (v : SatVar)
    (h : m.add_variable name id_ = (m', .ok v))
    (i : Int) (hi : i.natAbs = v.id) :
    m'.get_variable_with_id i = some v := by
  obtain ⟨hv, hfree, hvars⟩ := add_variable_ok m name id_ m' v h
  unfold SATModel.get_variable_with_id
  rw [hvars, hi, lookupId_append_of_no_key _ _ _ (by rw [show v.id = m.get_new_id id_ from by rw [hv]]; exact hfree)]
  simp [lookupId, List.find?_cons, show v.id = m.get_new_id id_ from by rw [hv]]

/-- C9 witness: register x with explicit id 1 in the empty model, then
look it up with the negative id -1. -/
theorem c9_lookup_abs_id_witness :
    ((SATModel.init.add_variable "x" 1).1.get_variable_with_id (-1))
      = some ⟨"x", 1, none⟩ := by
  have h : SATModel.init.add_variable "x" 1 =
      ((SATModel.init.add_variable "x" 1).1, .ok (⟨"x", 1, none⟩ : SatVar)) := rfl
  exact c9_lookup_abs_id SATModel.init "x" 1 _ _ h (-1) rfl

/-- C6: registering a variable under an explicit id that is already a
key raises the duplicate-id ValueError and returns the registry
untouched; both checks precede every mutation. -/
theorem c6_duplicate_id_atomic (m : SATModel) (name : String) (id_ : Int)
    (h0 : id_ ≠ 0)
    (h : (m.vars.any fun p => p.1 == id_.natAbs) = true) :
    m.add_variable name id_ =
      (m, .error ("Could not add_variable, the id " ++ toString id_.natAbs
        ++ " is already used.")) := by
  unfold SATModel.add_variable SATModel.get_new_id
  rw [if_neg h0]
  rw [if_pos]
  exact h

/-- C6 witness: a model already holding id 1 rejects a second explicit
registration of id 1 and is returned unchanged. -/
theorem c6_duplicate_id_atomic_witness :
    (SATModel.mk [(1, ⟨"x", 1, none⟩)] [("x", ⟨"x", 1, none⟩)]
        [⟨"x", 1, none⟩] []).add_variable "y" 1 =
      (SATModel.mk [(1, ⟨"x", 1, none⟩)] [("x", ⟨"x", 1, none⟩)]
        [⟨"x", 1, none⟩] [],
       .error ("Could not add_variable, the id " ++ toString (1 : Int).natAbs
        ++ " is already used.")) :=
  c6_duplicate_id_atomic _ "y" 1 (by decide) (by decide)

/-- C5: the failing input [0].  The entries are all ints and one of
them is 0, so the condition literally written in the source skips the
validation raise; the call then registers a variable named x0 under the
fresh id 1 and crashes with a KeyError instead of the documented
validation error, leaving the registry mutated. -/
theorem c5_zero_entry_goes_unvalidated :
    SATModel.init.add_constraint_vector [PyVal.int 0] =
      ({ vars := [(1, ⟨"x0", 1, none⟩)],
         variables_name := [("x0", ⟨"x0", 1, none⟩)],
         lst_variables := [⟨"x0", 1, none⟩],
         constraints := [] }, .error ("KeyError: " ++ toString (0 : Nat))) := rfl

/-- C4 counterexample: a result carrying the unregistered id 2 is
processed without any error and the model is returned unchanged; the
unknown id is silently skipped. -/
theorem c4_counterexample_unknown_id_ok :
    (SATModel.mk [(1, ⟨"x", 1, none⟩)] [("x", ⟨"x", 1, none⟩)]
        [⟨"x", 1, none⟩] []).process_solution ⟨"satisfiable", [⟨2, 1⟩]⟩ =
      .ok (SATModel.mk [(1, ⟨"x", 1, none⟩)] [("x", ⟨"x", 1, none⟩)]
        [⟨"x", 1, none⟩] [], "satisfiable") := rfl

/-- The per-variable update step of _process_solution never changes the
key list of the variable dict. -/
theorem process_fold_keys (l : List ResultVar) :
    ∀ m : SATModel,
      ((l.foldl (fun acc var =>
          if acc.vars.any fun p => (p.1 : Int) == var.name then
            acc.set_var_value var.name (var.value == 1)
          else acc) m).vars.map Prod.fst) = m.vars.map Prod.fst := by
  induction l with
  | nil => intro m; rfl
  | cons v rest ih =>
    intro m
    simp only [List.foldl_cons]
    rw [ih]
    by_cases hc : (m.vars.any fun p => (p.1 : Int) == v.name) = true
    · rw [if_pos hc]
      unfold SATModel.set_var_value
      simp only [List.map_map]
      apply List.map_congr_left
      intro p _
      by_cases hp : (p.1 : Int) = v.name
      · simp [hp]
      · simp [hp]
    · rw [if_neg hc]

/-- C4 amended: whenever the status is a known solver status,
_process_solution succeeds, returning that status and a model with the
same registered ids; result entries with unregistered ids have no
effect and raise nothing. -/
theorem c4_unknown_ids_ignored (m : SATModel) (r : ResultObj)
    (h : r.status ∈ solverStatusCodes) :
    ∃ m' : SATModel, m.process_solution r = .ok (m', r.status) ∧
      m'.vars.map Prod.fst = m.vars.map Prod.fst := by
  refine ⟨_, ?_, process_fold_keys r.vars m⟩
  unfold SATModel.process_solution
  rw [if_neg (by simpa using h)]

/-- C4 amended witness: the one-variable model with a known status and
an unknown id entry. -/
theorem c4_unknown_ids_ignored_witness :
    ∃ m' : SATModel,
      (SATModel.mk [(1, ⟨"x", 1, none⟩)] [("x", ⟨"x", 1, none⟩)]
          [⟨"x", 1, none⟩] []).process_solution ⟨"satisfiable", [⟨2, 1⟩]⟩
        = .ok (m', "satisfiable") ∧
      m'.vars.map Prod.fst =
        (SATModel.mk [(1, ⟨"x", 1, none⟩)] [("x", ⟨"x", 1, none⟩)]
          [⟨"x", 1, none⟩] []).vars.map Prod.fst :=
  c4_unknown_ids_ignored _ ⟨"satisfiable", [⟨2, 1⟩]⟩ (by simp [solverStatusCodes])

end SatModel
